import Mathlib

set_option maxHeartbeats 1000000

-- Shallow embedding of the lexical retrieval core of src/vector_store.py:
-- a BM25-based retriever with bank/fee/category filters, keyword and bank
-- score bonuses, fuzzy name de-duplication, top-k truncation, and a
-- process-wide retriever cache keyed by dataset path.

-- ===== Data model: pandas rows and frames =====

-- A dataset row after `fillna("")`: association list from column name to cell
-- text, mirroring dynamic `row.get(col, default)` access in the source.
abbrev Row := List (String × String)

-- A raw dataset row before `fillna`: cells may be null.
abbrev RawRow := List (String × Option String)

/-- Model of `pandas.Series.get(key, default)`: the cell under the column
name when the column exists, else the default. -/
def rowGet (r : Row) (key dflt : String) : String :=
  match r.find? (fun p => p.1 == key) with
  | some p => p.2
  | none => dflt

/-- Model of `fillna("")` on one row: null cells become empty strings. -/
def fillnaRow (r : RawRow) : Row :=
  r.map (fun p => (p.1, p.2.getD ""))

structure RawFrame where
  cols : List String
  rows : List RawRow
deriving DecidableEq

structure Frame where
  cols : List String
  rows : List Row
deriving DecidableEq

def emptyFrame : Frame := ⟨[], []⟩

/-- Rows tagged with their positional index, as `df.iterrows()` /
`base.index` expose them. -/
def enumIdx (n : Nat) : List Row → List (Nat × Row)
  | [] => []
  | r :: rs => (n, r) :: enumIdx (n + 1) rs

-- ===== String helpers (models of the Python string operations used) =====

/-- Python `str.lower()` (ASCII, as in the dataset). -/
def lowerStr (s : String) : String := String.mk (s.data.map Char.toLower)

/-- Python `str.strip()`. -/
def stripStr (s : String) : String :=
  String.mk (((s.data.dropWhile Char.isWhitespace).reverse.dropWhile Char.isWhitespace).reverse)

def listPrefixB : List Char → List Char → Bool
  | [], _ => true
  | _ :: _, [] => false
  | a :: as, b :: bs => a == b && listPrefixB as bs

def listInfixB (n : List Char) : List Char → Bool
  | [] => n.isEmpty
  | c :: t => listPrefixB n (c :: t) || listInfixB n t

/-- Python `needle in hay` on strings (substring containment). -/
def pyInStr (needle hay : String) : Bool := listInfixB needle.data hay.data

def splitWsAux : List Char → List Char → List (List Char)
  | [], acc => if acc.isEmpty then [] else [acc.reverse]
  | c :: cs, acc =>
      if c.isWhitespace then
        (if acc.isEmpty then splitWsAux cs [] else acc.reverse :: splitWsAux cs [])
      else splitWsAux cs (c :: acc)

/-- `LocalRetriever._tokenize`: lower-case, replace "/" and "-" by spaces,
split on whitespace dropping empty tokens. -/
def tokenize (text : String) : List String :=
  (splitWsAux ((lowerStr text).data.map (fun c => if c == '/' || c == '-' then ' ' else c)) []).map
    String.mk

/-- Python `" ".join(...)`. -/
def joinSp : List String → String
  | [] => ""
  | [s] => s
  | s :: rest => s ++ " " ++ joinSp rest

-- ===== Fee parsing =====

def digitsAux : List Char → Nat → Option Nat
  | [], acc => some acc
  | c :: cs, acc => if c.isDigit then digitsAux cs (acc * 10 + (c.toNat - 48)) else none

def digitsToNat (l : List Char) : Option Nat :=
  if l.isEmpty then none else digitsAux l 0

/-- Model of Python `int(str(x))` on a plain decimal string with optional
leading minus sign. -/
def parseIntStr (s : String) : Option Int :=
  match s.data with
  | '-' :: rest => (digitsToNat rest).map (fun n => -(n : Int))
  | l => (digitsToNat l).map (fun n => (n : Int))

def stripCommas (s : String) : String := String.mk (s.data.filter (fun c => c ≠ ','))

/-- `fee_val` inside `_apply_filters`: parse the fee after removing thousands
separators; `10 ^ 9` on parse failure (the bare `except` branch). -/
def feeVal (x : String) : Int := (parseIntStr (stripCommas x)).getD (10 ^ 9)

/-- Fee column choice: `"Annual Fee" if "Annual Fee" in out.columns else
"annual_fee"`. -/
def feeCol (cols : List String) : String :=
  if "Annual Fee" ∈ cols then "Annual Fee" else "annual_fee"

-- ===== Filter stages (`LocalRetriever._apply_filters`) =====

/-- Row predicate of the bank filter: the bank field contains the requested
bank name case-insensitively. -/
def bankPred (b : String) (p : Nat × Row) : Bool :=
  pyInStr (lowerStr b) (lowerStr (rowGet p.2 "Bank Name" (rowGet p.2 "bank_name" "")))

/-- Bank filter: keep rows whose bank field contains the requested bank
(case-insensitive); no-op if that leaves nothing, or if the bank argument is
falsy. -/
def bankStage (bank : Option String) (rows : List (Nat × Row)) : List (Nat × Row) :=
  match bank with
  | none => rows
  | some b =>
      if b == "" then rows
      else if (rows.filter (bankPred b)).isEmpty then rows
      else rows.filter (bankPred b)

/-- Row predicate of the fee filter: parsed fee at most the ceiling. -/
def feePred (col : String) (f : Int) (p : Nat × Row) : Bool :=
  decide (feeVal (rowGet p.2 col "") ≤ f)

/-- Fee filter: keep rows with parsed fee at most the ceiling; skipped when
the ceiling is falsy (`None` or `0`) or no fee column exists. -/
def feeStage (cols : List String) (maxFee : Option Int) (rows : List (Nat × Row)) :
    List (Nat × Row) :=
  match maxFee with
  | none => rows
  | some f =>
      if f == 0 then rows
      else if feeCol cols ∈ cols then rows.filter (feePred (feeCol cols) f)
      else rows

/-- Category blob of `in_cats`: Tags, Key Benefits and Description cells
joined and lower-cased (Title-Case column names only, as in the source). -/
def catBlob (row : Row) : String :=
  lowerStr (joinSp [rowGet row "Tags" "", rowGet row "Key Benefits" "", rowGet row "Description" ""])

/-- Row predicate of the category filter: some requested category appears in
the blob. -/
def catPred (cs : List String) (p : Nat × Row) : Bool :=
  (cs.map lowerStr).any (fun c => pyInStr c (catBlob p.2))

/-- Category filter: keep rows whose blob contains some requested category;
skipped when the category list is falsy (`None` or empty). -/
def catStage (cats : Option (List String)) (rows : List (Nat × Row)) : List (Nat × Row) :=
  match cats with
  | none => rows
  | some cs =>
      if cs.isEmpty then rows
      else rows.filter (catPred cs)

/-- `LocalRetriever._apply_filters`: bank, then fee, then category stage. -/
def applyFilters (cols : List String) (rows : List (Nat × Row)) (bank : Option String)
    (maxFee : Option Int) (cats : Option (List String)) : List (Nat × Row) :=
  catStage cats (feeStage cols maxFee (bankStage bank rows))

-- ===== Score bonuses =====

def keywordSynonyms : List String :=
  ["cashback", "travel", "lounge", "fuel", "shopping", "dining", "online", "groceries",
   "rewards", "airport", "airport lounge", "priority pass", "milestone", "annual fee waiver",
   "forex", "foreign", "international", "movie", "movies", "cinema", "railway lounge",
   "travel insurance", "dining offers", "fuel surcharge"]

/-- `LocalRetriever._keyword_bonus`: 0.05 per fixed synonym present in both
the query and the candidate's name/description/benefits/tags text, capped at
0.20. -/
def keywordBonus (query : String) (row : Row) : ℚ :=
  let q := lowerStr query
  let txt := lowerStr (joinSp [rowGet row "Card Name" "", rowGet row "Description" "",
    rowGet row "Key Benefits" "", rowGet row "Tags" ""])
  let bonus := keywordSynonyms.foldl
    (fun b w => if pyInStr w q && pyInStr w txt then b + 1 / 20 else b) 0
  min bonus (1 / 5)

/-- `LocalRetriever._bank_bonus`: flat 0.25 when a (truthy) bank was requested
and the row's bank field contains it case-insensitively. -/
def bankBonus (bank : Option String) (row : Row) : ℚ :=
  match bank with
  | none => 0
  | some b =>
      if b == "" then 0
      else if pyInStr (lowerStr b) (lowerStr (rowGet row "Bank Name" (rowGet row "bank_name" "")))
      then 1 / 4
      else 0

-- ===== Fuzzy similarity (model of `rapidfuzz.fuzz.partial_ratio`) =====

/-- Longest common subsequence length, fuelled for structural recursion. -/
def lcsFuel : Nat → List Char → List Char → Nat
  | 0, _, _ => 0
  | _ + 1, [], _ => 0
  | _ + 1, _ :: _, [] => 0
  | f + 1, a :: as, b :: bs =>
      if a == b then lcsFuel f as bs + 1
      else max (lcsFuel f (a :: as) bs) (lcsFuel f as (b :: bs))

def lcsLen (x y : List Char) : Nat := lcsFuel (x.length + y.length) x y

/-- Normalized indel similarity on the 0-100 scale (`fuzz.ratio`):
`200 * lcs / (|x| + |y|)`. -/
def ratioQ (x y : List Char) : ℚ :=
  if x.length + y.length == 0 then 100
  else (200 * (lcsLen x y : ℚ)) / ((x.length : ℚ) + (y.length : ℚ))

def windowsOf (len : Nat) (l : List Char) : List (List Char) :=
  (List.range (l.length - len + 1)).map (fun off => (l.drop off).take len)

/-- Model of `rapidfuzz.fuzz.partial_ratio` (0-100 scale): best `ratioQ` of
the shorter string against each window of its length in the longer string. -/
def fuzzSim (s1 s2 : String) : ℚ :=
  let a := s1.data
  let b := s2.data
  let sh := if a.length ≤ b.length then a else b
  let lo := if a.length ≤ b.length then b else a
  if sh.isEmpty then (if lo.isEmpty then 100 else 0)
  else ((windowsOf sh.length lo).map (fun w => ratioQ sh w)).foldl max 0

-- ===== Stable descending sort (`rows.sort(key=score, reverse=True)`) =====

/-- Insertion step of a stable descending sort by score: an element from
earlier in the input goes in front of every element of equal or smaller
score. -/
def insertDesc (x : Nat × ℚ) : List (Nat × ℚ) → List (Nat × ℚ)
  | [] => [x]
  | y :: ys => if x.2 < y.2 then y :: insertDesc x ys else x :: y :: ys

def pySortDesc : List (Nat × ℚ) → List (Nat × ℚ)
  | [] => []
  | x :: xs => insertDesc x (pySortDesc xs)

/-- Required output order of the scored candidates: score strictly
descending, with ties in original dataset-row order. -/
def rankLex (a b : Nat × ℚ) : Prop := b.2 < a.2 ∨ (a.2 = b.2 ∧ a.1 < b.1)

-- ===== Retriever =====

/-- `LocalRetriever` state right after `__init__`: default `k`, normalized
frame, tokenized corpus and whether a BM25 index was built. -/
structure Retriever where
  k : Nat
  df : Frame
  corpus : List (List String)
  bmBuilt : Bool
deriving DecidableEq

/-- `LocalRetriever.search`'s per-row document text (`_row_text`). -/
def rowText (row : Row) : String :=
  joinSp [
    rowGet row "Card Name" (rowGet row "card_name" ""),
    rowGet row "Description" (rowGet row "description" ""),
    rowGet row "Key Benefits" (rowGet row "key_benefits" ""),
    rowGet row "Tags" (rowGet row "tags" ""),
    rowGet row "Eligibility" (rowGet row "eligibility" ""),
    rowGet row "Bank Name" (rowGet row "bank_name" ""),
    rowGet row "Card Type" (rowGet row "card_type" "")]

/-- `LocalRetriever.__init__`. -/
def mkRetriever (df : Option RawFrame) (k : Nat := 10) : Retriever :=
  let d : Frame :=
    match df with
    | some f => if f.rows.isEmpty then emptyFrame else ⟨f.cols, f.rows.map fillnaRow⟩
    | none => emptyFrame
  { k := k
    df := d
    corpus := if d.rows.isEmpty then [] else d.rows.map (fun r => tokenize (rowText r))
    bmBuilt := !d.rows.isEmpty }

/-- Python `k or default`. -/
def pyOrNat (kArg : Option Nat) (d : Nat) : Nat :=
  match kArg with
  | none => d
  | some n => if n == 0 then d else n

/-- The external BM25 scorer
(`rank_bm25.BM25Okapi(corpus).get_scores(query_tokens)`), a parameter of the
embedding; it returns one lexical score per corpus document. -/
abbrev BmFun := List (List String) → List String → List ℚ

/-- Step 1 of `search` with the line-95 fallback: the filtered rows, or the
whole frame whenever the filtered set is empty. -/
def searchBase (rt : Retriever) (bank : Option String) (maxFee : Option Int)
    (cats : Option (List String)) : List (Nat × Row) :=
  let all := enumIdx 0 rt.df.rows
  let filtered := applyFilters rt.df.cols all bank maxFee cats
  if filtered.isEmpty then all else filtered

/-- Step 2 of `search`: BM25 over an index built from exactly the candidate
subset, plus keyword and bank bonuses. -/
def scoreStage (bm : BmFun) (query : String) (bank : Option String)
    (base : List (Nat × Row)) : List (Nat × ℚ) :=
  let baseTokens := base.map (fun p => tokenize (rowText p.2))
  let sims := bm baseTokens (tokenize query)
  (base.zip sims).map (fun pq => (pq.1.1, pq.2 + keywordBonus query pq.1.2 + bankBonus bank pq.1.2))

def searchScored (bm : BmFun) (rt : Retriever) (query : String) (bank : Option String)
    (maxFee : Option Int) (cats : Option (List String)) : List (Nat × ℚ) :=
  scoreStage bm query bank (searchBase rt bank maxFee cats)

def searchSorted (bm : BmFun) (rt : Retriever) (query : String) (bank : Option String)
    (maxFee : Option Int) (cats : Option (List String)) : List (Nat × ℚ) :=
  pySortDesc (searchScored bm rt query bank maxFee cats)

/-- Normalized (stripped, lower-cased) card name of the base row with a given
index: `str(base.loc[i].get("Card Name", ...)).strip().lower()`. -/
def nameOf (base : List (Nat × Row)) (i : Nat) : String :=
  match base.find? (fun p => p.1 == i) with
  | some p => lowerStr (stripStr (rowGet p.2 "Card Name" (rowGet p.2 "card_name" "")))
  | none => ""

/-- Step 3 of `search`: fuzzy de-duplication over score-ordered candidates,
discarding a candidate whose name reaches similarity 92 with any seen name
and stopping once `cap` candidates are accumulated. -/
def pickLoop (lookup : Nat → String) (cap : Nat) :
    List (Nat × ℚ) → List String → List Nat
  | [], _ => []
  | iq :: rest, seen =>
      let name := lookup iq.1
      if seen.any (fun s => decide (92 ≤ fuzzSim name s)) then pickLoop lookup cap rest seen
      else if cap ≤ seen.length + 1 then [iq.1]
      else iq.1 :: pickLoop lookup cap rest (name :: seen)

def searchPicked (bm : BmFun) (rt : Retriever) (query : String) (bank : Option String)
    (maxFee : Option Int) (cats : Option (List String)) (kArg : Option Nat) : List Nat :=
  let k := pyOrNat kArg rt.k
  pickLoop (nameOf (searchBase rt bank maxFee cats)) (max (k * 2) 12)
    (searchSorted bm rt query bank maxFee cats) []

/-- The `out.rename(columns=...)` mapping of `search`. -/
def renameKey (c : String) : String :=
  if c == "Card Name" then "card_name"
  else if c == "Bank Name" then "bank_name"
  else if c == "Card Type" then "card_type"
  else if c == "Tags" then "tags"
  else if c == "Website" then "website"
  else if c == "Description" then "description"
  else if c == "Eligibility" then "eligibility"
  else if c == "Annual Fee" then "annual_fee"
  else if c == "Key Benefits" then "key_benefits"
  else if c == "FAQ" then "faq"
  else c

def renameRow (r : Row) : Row := r.map (fun p => (renameKey p.1, p.2))

/-- `LocalRetriever.search`: hard filters with fallback, BM25 scoring with
bonuses, stable descending sort, fuzzy de-duplication, truncation to k, and
renaming to the canonical snake_case schema. -/
def search (bm : BmFun) (rt : Retriever) (query : String) (bank : Option String)
    (maxFee : Option Int) (cats : Option (List String)) (kArg : Option Nat) : Frame :=
  if rt.df.rows.isEmpty || !rt.bmBuilt then emptyFrame
  else
    let k := pyOrNat kArg rt.k
    let base := searchBase rt bank maxFee cats
    let picked := searchPicked bm rt query bank maxFee cats kArg
    let candidates := picked.filterMap (fun i => base.find? (fun p => p.1 == i))
    ⟨rt.df.cols.map renameKey, (candidates.take k).map (fun p => renameRow p.2)⟩

-- ===== Vector store cache (`CreditCardVectorStore` / `_RETRIEVER_CACHE`) =====

def dictGet (c : List (String × Retriever)) (key : String) : Option Retriever :=
  (c.find? (fun p => p.1 == key)).map Prod.snd

def dictSet (c : List (String × Retriever)) (key : String) (v : Retriever) :
    List (String × Retriever) :=
  if (c.find? (fun p => p.1 == key)).isSome then
    c.map (fun p => if p.1 == key then (key, v) else p)
  else c ++ [(key, v)]

/-- `CreditCardVectorStore.__init__` as a state transition on the module-level
`_RETRIEVER_CACHE`. `fs` models the filesystem (`pd.read_csv` when the path
exists, `None` otherwise). Returns the chosen retriever, the new cache, and
whether a fresh `LocalRetriever` was built. -/
def initVectorStore (fs : String → Option RawFrame) (cache : List (String × Retriever))
    (forceReindex : Bool) (dataPath : String) : Retriever × List (String × Retriever) × Bool :=
  let key := dataPath ++ "::bm25"
  match (if forceReindex then none else dictGet cache key) with
  | some r => (r, cache, false)
  | none =>
      let r := mkRetriever (fs dataPath) 10
      (r, dictSet cache key r, true)

-- ===== Canonical column schemas and concrete data used by witnesses =====

def titleCols : List String :=
  ["Bank Name", "Card Name", "Card Type", "Annual Fee", "Key Benefits", "Description",
   "Tags", "Eligibility", "Website", "FAQ"]

def canonCols : List String :=
  ["bank_name", "card_name", "card_type", "annual_fee", "key_benefits", "description",
   "tags", "eligibility", "website", "faq"]

/-- Degenerate lexical scorer (all zeros) used to instantiate the BM25
parameter on concrete inputs. -/
def bmZero : BmFun := fun corpus _ => corpus.map (fun _ => 0)

def rtFee : Retriever :=
  mkRetriever (some ⟨["Card Name", "Annual Fee"],
    [[("Card Name", some "alpha gold"), ("Annual Fee", some "500")]]⟩) 10

def rtOne : Retriever :=
  mkRetriever (some ⟨["Card Name"], [[("Card Name", some "alpha gold")]]⟩) 10

def rtTitleTwo : Retriever :=
  mkRetriever (some ⟨["Card Name", "Tags"],
    [[("Card Name", some "alpha"), ("Tags", some "cashback")],
     [("Card Name", some "zulu"), ("Tags", some "travel")]]⟩) 10

def rtSnakeTwo : Retriever :=
  mkRetriever (some ⟨["card_name", "tags"],
    [[("card_name", some "alpha"), ("tags", some "cashback")],
     [("card_name", some "zulu"), ("tags", some "travel")]]⟩) 10

def lookupW : Nat → String := fun i => if i == 0 then "alpha" else "zulu"

def rowsW : List (Nat × ℚ) := [(0, 1), (1, 0)]

def rowNA : Row := [("Annual Fee", "N/A")]

def rowOne : Row := [("Card Name", "alpha gold")]

def rawFull : RawFrame :=
  ⟨titleCols,
   [[("Bank Name", some "HDFC Bank"), ("Card Name", some "alpha gold"),
     ("Card Type", some "credit"), ("Annual Fee", some "500"),
     ("Key Benefits", some "cashback"), ("Description", some "a card"),
     ("Tags", some "shopping"), ("Eligibility", none), ("Website", some "w"),
     ("FAQ", none)]]⟩

-- ===== Theorems =====

section

attribute [local semireducible] Rat.mul Rat.add Rat.sub Rat.inv Rat.ofScientific

/-- C10: a fee ceiling of 0 is falsy in `if max_fee:`, so the fee filter is
skipped entirely and behaves exactly as if no fee constraint had been given;
a zero ceiling never excludes any row. -/
theorem C10_fee_zero (cols : List String) (rows : List (Nat × Row)) (bank : Option String)
    (cats : Option (List String)) :
    applyFilters cols rows bank (some 0) cats = applyFilters cols rows bank none cats := rfl

/-- C3 amended: the result of `search` has length at most the effective k,
which is the supplied k when it is nonzero and the retriever default
otherwise (`k = k or self.k`); for k = 0 the bound is the default, not 0. -/
theorem C3_topk (bm : BmFun) (rt : Retriever) (q : String) (bank : Option String)
    (mf : Option Int) (cats : Option (List String)) (kArg : Option Nat) :
    (search bm rt q bank mf cats kArg).rows.length ≤ pyOrNat kArg rt.k := by
  unfold search
  split
  · simp [emptyFrame]
  · simp only [List.length_map, List.length_take]
    exact min_le_left _ _

/-- C3 counterexample: with the default k of 10 and a one-row dataset,
`search(..., k=0)` returns one record, so the returned list does not have
length at most the supplied k = 0. -/
theorem C3_cx : ¬ ((search bmZero rtOne "q" none none none (some 0)).rows.length ≤ 0) := by
  decide

theorem findMap_some (c : List (String × Retriever)) (key : String) (v : Retriever)
    (hs : (c.find? (fun p => p.1 == key)).isSome) :
    (c.map (fun p => if p.1 == key then (key, v) else p)).find? (fun p => p.1 == key)
      = some (key, v) := by
  induction c with
  | nil => simp at hs
  | cons p t ih =>
      by_cases hp : (p.1 == key) = true
      · simp only [List.map_cons, if_pos hp, List.find?_cons, beq_self_eq_true]
      · have hp' : (p.1 == key) = false := by simpa using hp
        have hs' : (t.find? (fun p => p.1 == key)).isSome := by
          simpa [List.find?_cons, hp'] using hs
        simp only [List.map_cons, hp', Bool.false_eq_true, if_false, List.find?_cons]
        exact ih hs'

theorem dictGet_append (c : List (String × Retriever)) (key : String) (v : Retriever)
    (h : c.find? (fun p => p.1 == key) = none) :
    dictGet (c ++ [(key, v)]) key = some v := by
  induction c with
  | nil => simp [dictGet]
  | cons p t ih =>
      have hp' : (p.1 == key) = false := by
        by_contra hpp
        simp only [Bool.not_eq_false] at hpp
        simp [List.find?_cons, hpp] at h
      simp only [List.find?_cons, hp'] at h
      simp only [List.cons_append, dictGet, List.find?_cons, hp']
      simpa [dictGet] using ih h

theorem dictGet_dictSet (c : List (String × Retriever)) (key : String) (v : Retriever) :
    dictGet (dictSet c key v) key = some v := by
  by_cases hs : (c.find? (fun p => p.1 == key)).isSome
  · rw [dictSet, if_pos hs]
    simp only [dictGet]
    rw [findMap_some c key v hs]
    rfl
  · rw [dictSet, if_neg hs]
    exact dictGet_append c key v (Option.not_isSome_iff_eq_none.mp hs)

theorem initStore_get (fs : String → Option RawFrame) (c : List (String × Retriever))
    (f : Bool) (path : String) :
    dictGet (initVectorStore fs c f path).2.1 (path ++ "::bm25")
      = some (initVectorStore fs c f path).1 := by
  cases f with
  | true => simp [initVectorStore, dictGet_dictSet]
  | false =>
      cases h : dictGet c (path ++ "::bm25") with
      | some r => simp [initVectorStore, h]
      | none => simp [initVectorStore, h, dictGet_dictSet]

theorem initStore_hit (fs : String → Option RawFrame) (c : List (String × Retriever))
    (path : String) (r : Retriever) (h : dictGet c (path ++ "::bm25") = some r) :
    initVectorStore fs c false path = (r, c, false) := by
  simp [initVectorStore, h]

/-- C9: constructing the vector store again for the same dataset path without
the force flag returns the cached retriever and builds nothing, leaving the
cache unchanged; constructing with the force flag always builds a fresh
retriever and installs it as the cache entry for that key. -/
theorem C9_cache (fs : String → Option RawFrame) (c : List (String × Retriever))
    (f : Bool) (path : String) :
    ((initVectorStore fs (initVectorStore fs c f path).2.1 false path).1
        = (initVectorStore fs c f path).1 ∧
      (initVectorStore fs (initVectorStore fs c f path).2.1 false path).2.1
        = (initVectorStore fs c f path).2.1 ∧
      (initVectorStore fs (initVectorStore fs c f path).2.1 false path).2.2 = false) ∧
    ((initVectorStore fs (initVectorStore fs c f path).2.1 true path).2.2 = true ∧
      (initVectorStore fs (initVectorStore fs c f path).2.1 true path).1
        = mkRetriever (fs path) 10 ∧
      dictGet (initVectorStore fs (initVectorStore fs c f path).2.1 true path).2.1
          (path ++ "::bm25")
        = some (initVectorStore fs (initVectorStore fs c f path).2.1 true path).1) := by
  have hget := initStore_get fs c f path
  have h2 := initStore_hit fs (initVectorStore fs c f path).2.1 path
    ((initVectorStore fs c f path).1) hget
  refine ⟨⟨?_, ?_, ?_⟩, ?_, ?_, ?_⟩
  · rw [h2]
  · rw [h2]
  · rw [h2]
  · simp [initVectorStore]
  · simp [initVectorStore]
  · exact initStore_get fs _ true path


theorem mem_insertDesc (x z : Nat × ℚ) (l : List (Nat × ℚ)) :
    z ∈ insertDesc x l ↔ z = x ∨ z ∈ l := by
  induction l with
  | nil => simp [insertDesc]
  | cons y ys ih =>
      by_cases h : x.2 < y.2
      · simp only [insertDesc, if_pos h, List.mem_cons, ih]
        tauto
      · simp only [insertDesc, if_neg h, List.mem_cons]

theorem insertDesc_pairwise (x : Nat × ℚ) (l : List (Nat × ℚ))
    (hl : l.Pairwise rankLex) (hx : ∀ y ∈ l, x.1 < y.1) :
    (insertDesc x l).Pairwise rankLex := by
  induction l with
  | nil => simp [insertDesc, rankLex]
  | cons y ys ih =>
      rcases List.pairwise_cons.mp hl with ⟨hy, hys⟩
      by_cases h : x.2 < y.2
      · simp only [insertDesc, if_pos h]
        refine List.pairwise_cons.mpr ⟨?_, ih hys (fun z hz => hx z (List.mem_cons_of_mem y hz))⟩
        intro z hz
        rcases (mem_insertDesc x z ys).mp hz with rfl | hzys
        · exact Or.inl h
        · exact hy z hzys
      · simp only [insertDesc, if_neg h]
        refine List.pairwise_cons.mpr ⟨?_, hl⟩
        intro z hz
        rcases List.mem_cons.mp hz with rfl | hzys
        · rcases lt_or_eq_of_le (not_lt.mp h) with hlt | heq
          · exact Or.inl hlt
          · exact Or.inr ⟨heq.symm, hx z (List.mem_cons_self z ys)⟩
        · have hyz := hy z hzys
          have hz2 : z.2 ≤ y.2 := by
            rcases hyz with h1 | ⟨h1, _⟩
            · exact le_of_lt h1
            · exact le_of_eq h1.symm
          rcases lt_or_eq_of_le (le_trans hz2 (not_lt.mp h)) with hlt | heq
          · exact Or.inl hlt
          · exact Or.inr ⟨heq.symm, hx z (List.mem_cons_of_mem y hzys)⟩

theorem pySortDesc_mem (z : Nat × ℚ) (l : List (Nat × ℚ)) :
    z ∈ pySortDesc l ↔ z ∈ l := by
  induction l with
  | nil => simp [pySortDesc]
  | cons x xs ih => simp [pySortDesc, mem_insertDesc, ih]

theorem pySortDesc_pairwise (l : List (Nat × ℚ))
    (h : l.Pairwise (fun a b => a.1 < b.1)) : (pySortDesc l).Pairwise rankLex := by
  induction l with
  | nil => simp [pySortDesc]
  | cons x xs ih =>
      rcases List.pairwise_cons.mp h with ⟨hx, hxs⟩
      simp only [pySortDesc]
      exact insertDesc_pairwise x _ (ih hxs) (fun z hz => hx z ((pySortDesc_mem z xs).mp hz))

theorem mem_enumIdx_le (n : Nat) (l : List Row) (p : Nat × Row) :
    p ∈ enumIdx n l → n ≤ p.1 := by
  induction l generalizing n with
  | nil => simp [enumIdx]
  | cons r rs ih =>
      intro hp
      rcases List.mem_cons.mp hp with rfl | h
      · exact le_refl _
      · exact le_trans (Nat.le_succ n) (ih (n + 1) h)

theorem enumIdx_pairwise (n : Nat) (l : List Row) :
    (enumIdx n l).Pairwise (fun a b => a.1 < b.1) := by
  induction l generalizing n with
  | nil => simp [enumIdx]
  | cons r rs ih =>
      simp only [enumIdx]
      refine List.pairwise_cons.mpr ⟨?_, ih (n + 1)⟩
      intro z hz
      exact lt_of_lt_of_le (Nat.lt_succ_self n) (mem_enumIdx_le (n + 1) rs z hz)

theorem bankStage_sublist (bank : Option String) (rows : List (Nat × Row)) :
    List.Sublist (bankStage bank rows) rows := by
  cases bank with
  | none => exact List.Sublist.refl _
  | some b =>
      by_cases h1 : (b == "") = true
      · simp [bankStage, h1]
      · by_cases h2 : (rows.filter (bankPred b)).isEmpty
        · simp [bankStage, h1, h2]
        · simp [bankStage, h1, h2, List.filter_sublist]

theorem feeStage_sublist (cols : List String) (maxFee : Option Int) (rows : List (Nat × Row)) :
    List.Sublist (feeStage cols maxFee rows) rows := by
  cases maxFee with
  | none => exact List.Sublist.refl _
  | some f =>
      by_cases h1 : (f == 0) = true
      · simp [feeStage, h1]
      · by_cases h2 : feeCol cols ∈ cols
        · simp [feeStage, h1, h2, List.filter_sublist]
        · simp [feeStage, h1, h2]

theorem catStage_sublist (cats : Option (List String)) (rows : List (Nat × Row)) :
    List.Sublist (catStage cats rows) rows := by
  cases cats with
  | none => exact List.Sublist.refl _
  | some cs =>
      by_cases h1 : cs.isEmpty
      · simp [catStage, h1]
      · simp [catStage, h1, List.filter_sublist]

theorem applyFilters_sublist (cols : List String) (rows : List (Nat × Row))
    (bank : Option String) (maxFee : Option Int) (cats : Option (List String)) :
    List.Sublist (applyFilters cols rows bank maxFee cats) rows :=
  ((catStage_sublist cats _).trans (feeStage_sublist cols maxFee _)).trans
    (bankStage_sublist bank rows)

theorem searchBase_sublist (rt : Retriever) (bank : Option String) (maxFee : Option Int)
    (cats : Option (List String)) :
    List.Sublist (searchBase rt bank maxFee cats) (enumIdx 0 rt.df.rows) := by
  by_cases h : (applyFilters rt.df.cols (enumIdx 0 rt.df.rows) bank maxFee cats).isEmpty
  · simp [searchBase, h]
  · simp [searchBase, h, applyFilters_sublist]

theorem searchBase_pairwise (rt : Retriever) (bank : Option String) (maxFee : Option Int)
    (cats : Option (List String)) :
    (searchBase rt bank maxFee cats).Pairwise (fun a b => a.1 < b.1) :=
  (enumIdx_pairwise 0 rt.df.rows).sublist (searchBase_sublist rt bank maxFee cats)

theorem zip_pairwise_fst (l : List (Nat × Row)) (s : List ℚ)
    (h : l.Pairwise (fun a b => a.1 < b.1)) :
    (l.zip s).Pairwise (fun a b => a.1.1 < b.1.1) := by
  induction l generalizing s with
  | nil => simp
  | cons x xs ih =>
      cases s with
      | nil => simp
      | cons q qs =>
          rcases List.pairwise_cons.mp h with ⟨hx, hxs⟩
          simp only [List.zip_cons_cons]
          refine List.pairwise_cons.mpr ⟨?_, ih qs hxs⟩
          intro z hz
          exact hx z.1 (List.of_mem_zip hz).1

theorem scoreStage_pairwise (bm : BmFun) (q : String) (bank : Option String)
    (base : List (Nat × Row)) (h : base.Pairwise (fun a b => a.1 < b.1)) :
    (scoreStage bm q bank base).Pairwise (fun a b => a.1 < b.1) := by
  unfold scoreStage
  exact (zip_pairwise_fst base _ h).map _ (fun a b hab => hab)

theorem searchScored_pairwise (bm : BmFun) (rt : Retriever) (q : String)
    (bank : Option String) (maxFee : Option Int) (cats : Option (List String)) :
    (searchScored bm rt q bank maxFee cats).Pairwise (fun a b => a.1 < b.1) :=
  scoreStage_pairwise bm q bank _ (searchBase_pairwise rt bank maxFee cats)

theorem pickLoop_sublist (lookup : Nat → String) (cap : Nat) (rows : List (Nat × ℚ))
    (seen : List String) : List.Sublist (pickLoop lookup cap rows seen) (rows.map Prod.fst) := by
  induction rows generalizing seen with
  | nil => simp [pickLoop]
  | cons iq rest ih =>
      simp only [pickLoop, List.map_cons]
      by_cases h1 : seen.any (fun s => decide (92 ≤ fuzzSim (lookup iq.1) s))
      · simp only [h1, if_true]
        exact (ih seen).cons iq.1
      · simp only [h1, Bool.false_eq_true, if_false]
        by_cases h2 : cap ≤ seen.length + 1
        · simp only [h2, if_true]
          exact (List.nil_sublist _).cons₂ iq.1
        · simp only [h2, if_false]
          exact (ih _).cons₂ iq.1

/-- C7: the scored candidates of `search` are sorted by final score
descending with ties in original dataset-row order (the sort is stable and
the pre-sort list is in dataset order), and the picked indices that `search`
returns are drawn from that sorted list in order. -/
theorem C7_order (bm : BmFun) (rt : Retriever) (q : String) (bank : Option String)
    (maxFee : Option Int) (cats : Option (List String)) (kArg : Option Nat) :
    (searchSorted bm rt q bank maxFee cats).Pairwise rankLex ∧
    (searchPicked bm rt q bank maxFee cats kArg).Sublist
      ((searchSorted bm rt q bank maxFee cats).map Prod.fst) := by
  constructor
  · exact pySortDesc_pairwise _ (searchScored_pairwise bm rt q bank maxFee cats)
  · exact pickLoop_sublist _ _ _ []


theorem lcsFuel_self (l : List Char) : ∀ f : Nat, 2 * l.length ≤ f → lcsFuel f l l = l.length := by
  induction l with
  | nil =>
      intro f _
      cases f with
      | zero => rfl
      | succ g => rfl
  | cons a as ih =>
      intro f hf
      cases f with
      | zero => simp at hf
      | succ g =>
          have hg : 2 * as.length ≤ g := by
            simp only [List.length_cons] at hf
            omega
          simp only [lcsFuel, beq_self_eq_true, if_true, ih g hg, List.length_cons]

theorem lcsLen_self (l : List Char) : lcsLen l l = l.length :=
  lcsFuel_self l (l.length + l.length) (by omega)

theorem ratioQ_self (l : List Char) (h : l ≠ []) : ratioQ l l = 100 := by
  have hlen : 0 < l.length := List.length_pos.mpr h
  unfold ratioQ
  rw [if_neg (by simp only [beq_iff_eq]; omega)]
  rw [lcsLen_self]
  have hq : ((l.length : ℚ) + l.length) ≠ 0 := by
    have hz : (0 : ℚ) < (l.length : ℚ) + l.length := by
      have hc : (0 : ℚ) < (l.length : ℚ) := by exact_mod_cast hlen
      linarith
    exact ne_of_gt hz
  rw [div_eq_iff hq]
  push_cast
  ring

theorem fuzzSim_self (s : String) : fuzzSim s s = 100 := by
  unfold fuzzSim
  simp only [le_refl, if_true]
  by_cases h : s.data.isEmpty
  · simp [h]
  · rw [if_neg h]
    have hne : s.data ≠ [] := by simpa [List.isEmpty_iff] using h
    have hwin : windowsOf s.data.length s.data = [s.data] := by
      simp [windowsOf, List.range_succ]
    rw [hwin]
    simp [ratioQ_self s.data hne]

theorem pickLoop_length (lookup : Nat → String) (cap : Nat) :
    ∀ (rows : List (Nat × ℚ)) (seen : List String), seen.length < cap →
      (pickLoop lookup cap rows seen).length ≤ cap - seen.length := by
  intro rows
  induction rows with
  | nil => intro seen _; simp [pickLoop]
  | cons iq rest ih =>
      intro seen hseen
      simp only [pickLoop]
      by_cases h1 : seen.any (fun s => decide (92 ≤ fuzzSim (lookup iq.1) s))
      · simp only [h1, if_true]
        exact ih seen hseen
      · simp only [h1, Bool.false_eq_true, if_false]
        by_cases h2 : cap ≤ seen.length + 1
        · simp only [h2, if_true, List.length_singleton]
          omega
        · simp only [h2, if_false, List.length_cons]
          have hrec := ih (lookup iq.1 :: seen) (by simp; omega)
          simp only [List.length_cons] at hrec
          omega

theorem pickLoop_blocked (lookup : Nat → String) (cap : Nat) (j : Nat) :
    ∀ (rows : List (Nat × ℚ)) (seen : List String),
      (∃ s ∈ seen, 92 ≤ fuzzSim (lookup j) s) → j ∉ pickLoop lookup cap rows seen := by
  intro rows
  induction rows with
  | nil => intro seen _; simp [pickLoop]
  | cons iq rest ih =>
      intro seen hblock
      simp only [pickLoop]
      by_cases h1 : seen.any (fun s => decide (92 ≤ fuzzSim (lookup iq.1) s))
      · simp only [h1, if_true]
        exact ih seen hblock
      · have hne : j ≠ iq.1 := by
          intro hji
          apply h1
          rcases hblock with ⟨s, hs, hsim⟩
          refine List.any_eq_true.mpr ⟨s, hs, ?_⟩
          rw [← hji]
          exact decide_eq_true hsim
        simp only [h1, Bool.false_eq_true, if_false]
        by_cases h2 : cap ≤ seen.length + 1
        · simp only [h2, if_true, List.mem_singleton]
          exact hne
        · simp only [h2, if_false, List.mem_cons, not_or]
          refine ⟨hne, ih _ ?_⟩
          rcases hblock with ⟨s, hs, hsim⟩
          exact ⟨s, List.mem_cons_of_mem _ hs, hsim⟩

theorem pickLoop_lt_of_mem (lookup : Nat → String) (cap : Nat) :
    ∀ (rows : List (Nat × ℚ)) (seen : List String) (j : Nat),
      j ∈ pickLoop lookup cap rows seen → ∀ s ∈ seen, fuzzSim (lookup j) s < 92 := by
  intro rows
  induction rows with
  | nil => intro seen j hj; simp [pickLoop] at hj
  | cons iq rest ih =>
      intro seen j hj s hs
      simp only [pickLoop] at hj
      by_cases h1 : seen.any (fun s => decide (92 ≤ fuzzSim (lookup iq.1) s))
      · rw [if_pos h1] at hj
        exact ih seen j hj s hs
      · have hhead : ∀ t ∈ seen, fuzzSim (lookup iq.1) t < 92 := by
          intro t ht
          by_contra hge
          exact h1 (List.any_eq_true.mpr ⟨t, ht, decide_eq_true (not_lt.mp hge)⟩)
        rw [if_neg h1] at hj
        by_cases h2 : cap ≤ seen.length + 1
        · rw [if_pos h2] at hj
          rcases List.mem_singleton.mp hj with rfl
          exact hhead s hs
        · rw [if_neg h2] at hj
          rcases List.mem_cons.mp hj with rfl | hj2
          · exact hhead s hs
          · exact ih _ j hj2 s (List.mem_cons_of_mem _ hs)

theorem pickLoop_pairwise (lookup : Nat → String) (cap : Nat) :
    ∀ (rows : List (Nat × ℚ)) (seen : List String),
      (pickLoop lookup cap rows seen).Pairwise
        (fun a b => fuzzSim (lookup b) (lookup a) < 92) := by
  intro rows
  induction rows with
  | nil => intro seen; simp [pickLoop]
  | cons iq rest ih =>
      intro seen
      simp only [pickLoop]
      by_cases h1 : seen.any (fun s => decide (92 ≤ fuzzSim (lookup iq.1) s))
      · simp only [h1, if_true]
        exact ih seen
      · simp only [h1, Bool.false_eq_true, if_false]
        by_cases h2 : cap ≤ seen.length + 1
        · simp [h2]
        · simp only [h2, if_false]
          refine List.pairwise_cons.mpr ⟨?_, ih _⟩
          intro j hj
          exact pickLoop_lt_of_mem lookup cap rest _ j hj (lookup iq.1)
            (List.mem_cons_self _ _)

theorem pickLoop_dup (lookup : Nat → String) (cap : Nat) :
    ∀ (rows : List (Nat × ℚ)) (seen : List String) (i : Nat) (si : ℚ) (j : Nat) (sj : ℚ),
      List.Sublist [(i, si), (j, sj)] rows → (rows.map Prod.fst).Nodup →
      lookup i = lookup j → j ∉ pickLoop lookup cap rows seen := by
  intro rows
  induction rows with
  | nil =>
      intro seen i si j sj hsub _ _
      simp at hsub
  | cons h rest ih =>
      intro seen i si j sj hsub hnd heq
      have hnd' : (rest.map Prod.fst).Nodup := by
        simp only [List.map_cons, List.nodup_cons] at hnd
        exact hnd.2
      have hhead : h.1 ∉ rest.map Prod.fst := by
        simp only [List.map_cons, List.nodup_cons] at hnd
        exact hnd.1
      cases hsub with
      | cons _ htail =>
          -- both (i, si) and (j, sj) occur in rest
          have hjmem : j ∈ rest.map Prod.fst := by
            have : (j, sj) ∈ rest := htail.subset (by simp)
            exact List.mem_map.mpr ⟨(j, sj), this, rfl⟩
          have hne : j ≠ h.1 := fun hji => hhead (hji ▸ hjmem)
          simp only [pickLoop]
          by_cases h1 : seen.any (fun s => decide (92 ≤ fuzzSim (lookup h.1) s))
          · simp only [h1, if_true]
            exact ih seen i si j sj htail hnd' heq
          · simp only [h1, Bool.false_eq_true, if_false]
            by_cases h2 : cap ≤ seen.length + 1
            · simp only [h2, if_true, List.mem_singleton]
              exact hne
            · simp only [h2, if_false, List.mem_cons, not_or]
              exact ⟨hne, ih _ i si j sj htail hnd' heq⟩
      | cons₂ _ htail =>
          -- h = (i, si) and (j, sj) occurs in rest
          have hjmem : j ∈ rest.map Prod.fst := by
            have : (j, sj) ∈ rest := htail.subset (by simp)
            exact List.mem_map.mpr ⟨(j, sj), this, rfl⟩
          have hne : j ≠ i := fun hji => hhead (by simpa [hji] using hjmem)
          simp only [pickLoop]
          by_cases h1 : seen.any (fun s => decide (92 ≤ fuzzSim (lookup i) s))
          · simp only [h1, if_true]
            rcases List.any_eq_true.mp h1 with ⟨s, hs, hsim⟩
            exact pickLoop_blocked lookup cap j rest seen
              ⟨s, hs, by rw [← heq]; exact of_decide_eq_true hsim⟩
          · simp only [h1, Bool.false_eq_true, if_false]
            by_cases h2 : cap ≤ seen.length + 1
            · simp only [h2, if_true, List.mem_singleton]
              exact hne
            · simp only [h2, if_false, List.mem_cons, not_or]
              refine ⟨hne, pickLoop_blocked lookup cap j rest _ ?_⟩
              refine ⟨lookup i, List.mem_cons_self _ _, ?_⟩
              rw [← heq, fuzzSim_self]
              norm_num

/-- C6: de-duplication processes the score-ordered candidates in order and
(1) never accumulates more than `max(2k, 12)` picks, (2) any two surviving
candidates have fuzzy partial-match similarity of their normalized names
below the threshold 92, and (3) when two candidates carry the same
normalized name (for example case/whitespace variants), the later-processed,
lower-scored one never survives. -/
theorem C6_dedup (lookup : Nat → String) (kk : Nat) (rows : List (Nat × ℚ))
    (hnd : (rows.map Prod.fst).Nodup)
    (hdesc : rows.Pairwise (fun a b => b.2 ≤ a.2)) :
    (pickLoop lookup (max (kk * 2) 12) rows []).length ≤ max (kk * 2) 12 ∧
    (pickLoop lookup (max (kk * 2) 12) rows []).Pairwise
      (fun a b => fuzzSim (lookup b) (lookup a) < 92) ∧
    ∀ i si j sj, List.Sublist [(i, si), (j, sj)] rows → lookup i = lookup j →
      j ∉ pickLoop lookup (max (kk * 2) 12) rows [] := by
  refine ⟨?_, pickLoop_pairwise lookup _ rows [], ?_⟩
  · have hcap : (0 : Nat) < max (kk * 2) 12 :=
      lt_of_lt_of_le (by norm_num) (le_max_right (kk * 2) 12)
    have := pickLoop_length lookup (max (kk * 2) 12) rows [] (by simpa using hcap)
    simpa using this
  · intro i si j sj hsub heqn
    exact pickLoop_dup lookup _ rows [] i si j sj hsub hnd heqn

/-- C6 witness: the pick-count bound instantiated on a concrete descending,
duplicate-free candidate list. -/
theorem C6_dedup_wit :
    (pickLoop lookupW (max (3 * 2) 12) rowsW []).length ≤ max (3 * 2) 12 :=
  (C6_dedup lookupW 3 rowsW (by decide) (by decide)).1


theorem enumIdx_snd_mem (n : Nat) (l : List Row) (p : Nat × Row) :
    p ∈ enumIdx n l → p.2 ∈ l := by
  induction l generalizing n with
  | nil => simp [enumIdx]
  | cons r rs ih =>
      intro hp
      rcases List.mem_cons.mp hp with rfl | h
      · exact List.mem_cons_self _ _
      · exact List.mem_cons_of_mem _ (ih (n + 1) h)

theorem bankStage_noop (b : String) (rows : List (Nat × Row))
    (h : ∀ p ∈ rows, bankPred b p = false) : bankStage (some b) rows = rows := by
  by_cases h1 : (b == "") = true
  · simp [bankStage, h1]
  · have hfil : rows.filter (bankPred b) = [] := by
      apply List.filter_eq_nil.mpr
      intro p hp
      simp [h p hp]
    simp [bankStage, h1, hfil]

theorem bankBonus_zero_of_nomatch (b : String) (row : Row)
    (hp : pyInStr (lowerStr b) (lowerStr (rowGet row "Bank Name" (rowGet row "bank_name" ""))) = false) :
    bankBonus (some b) row = 0 := by
  by_cases h1 : (b == "") = true
  · simp [bankBonus, h1]
  · simp [bankBonus, h1, hp]

theorem scoreStage_bank_congr (bm : BmFun) (q : String) (b : String)
    (base : List (Nat × Row))
    (h : ∀ p ∈ base, bankBonus (some b) p.2 = bankBonus none p.2) :
    scoreStage bm q (some b) base = scoreStage bm q none base := by
  unfold scoreStage
  apply List.map_congr_left
  intro pq hpq
  have hmem : pq.1 ∈ base := by
    obtain ⟨a, c⟩ := pq
    exact (List.of_mem_zip hpq).1
  rw [h pq.1 hmem]

/-- C5: when no row of a non-empty dataset matches the requested bank as a
case-insensitive substring, `search` with that bank returns exactly the same
frame as `search` with no bank: the strict bank filter falls back to the
whole pre-filter set and the bank bonus adds zero to every score. -/
theorem C5_bank_noop (bm : BmFun) (rt : Retriever) (q : String) (b : String)
    (mf : Option Int) (cats : Option (List String)) (kArg : Option Nat)
    (hne : rt.df.rows ≠ [])
    (h : ∀ r ∈ rt.df.rows,
      pyInStr (lowerStr b) (lowerStr (rowGet r "Bank Name" (rowGet r "bank_name" ""))) = false) :
    search bm rt q (some b) mf cats kArg = search bm rt q none mf cats kArg := by
  have hpred : ∀ p ∈ enumIdx 0 rt.df.rows, bankPred b p = false := by
    intro p hp
    simpa [bankPred] using h p.2 (enumIdx_snd_mem 0 rt.df.rows p hp)
  have hstage : bankStage (some b) (enumIdx 0 rt.df.rows) = enumIdx 0 rt.df.rows :=
    bankStage_noop b _ hpred
  have hfilters : applyFilters rt.df.cols (enumIdx 0 rt.df.rows) (some b) mf cats
      = applyFilters rt.df.cols (enumIdx 0 rt.df.rows) none mf cats := by
    unfold applyFilters
    rw [hstage]
    rfl
  have hbase : searchBase rt (some b) mf cats = searchBase rt none mf cats := by
    simp only [searchBase]
    rw [hfilters]
  have hbonus : ∀ p ∈ searchBase rt none mf cats, bankBonus (some b) p.2 = bankBonus none p.2 := by
    intro p hp
    have : p.2 ∈ rt.df.rows :=
      enumIdx_snd_mem 0 rt.df.rows p ((searchBase_sublist rt none mf cats).subset hp)
    rw [bankBonus_zero_of_nomatch b p.2 (h p.2 this)]
    rfl
  have hscored : searchScored bm rt q (some b) mf cats = searchScored bm rt q none mf cats := by
    unfold searchScored
    rw [hbase]
    exact scoreStage_bank_congr bm q b _ hbonus
  have hsorted : searchSorted bm rt q (some b) mf cats = searchSorted bm rt q none mf cats := by
    unfold searchSorted
    rw [hscored]
  have hpicked : searchPicked bm rt q (some b) mf cats kArg
      = searchPicked bm rt q none mf cats kArg := by
    unfold searchPicked
    rw [hbase, hsorted]
  unfold search
  rw [hbase, hpicked]

/-- C5 witness: on a one-row dataset with no bank field matching "icici",
searching with that bank equals searching with no bank at all. -/
theorem C5_bank_noop_wit :
    search bmZero rtOne "q" (some "icici") none none none
      = search bmZero rtOne "q" none none none none :=
  C5_bank_noop bmZero rtOne "q" "icici" none none none (by decide) (by decide)

theorem insertDesc_length (x : Nat × ℚ) (l : List (Nat × ℚ)) :
    (insertDesc x l).length = l.length + 1 := by
  induction l with
  | nil => rfl
  | cons y ys ih =>
      by_cases h : x.2 < y.2
      · simp [insertDesc, if_pos h, ih]
      · simp [insertDesc, if_neg h]

theorem pySortDesc_length (l : List (Nat × ℚ)) : (pySortDesc l).length = l.length := by
  induction l with
  | nil => rfl
  | cons x xs ih => simp [pySortDesc, insertDesc_length, ih]

theorem scoreStage_length (bm : BmFun) (q : String) (bank : Option String)
    (base : List (Nat × Row)) (hbm : ∀ c qt, (bm c qt).length = c.length) :
    (scoreStage bm q bank base).length = base.length := by
  unfold scoreStage
  rw [List.length_map, List.length_zip, hbm, List.length_map, min_self]

theorem pickLoop_cons_ne (lookup : Nat → String) (cap : Nat) (iq : Nat × ℚ)
    (rest : List (Nat × ℚ)) : pickLoop lookup cap (iq :: rest) [] ≠ [] := by
  simp only [pickLoop, List.any_nil, Bool.false_eq_true, if_false, List.length_nil,
    Nat.zero_add]
  by_cases h2 : cap ≤ 1
  · simp [h2]
  · simp [h2]

theorem mem_map_fst_scoreStage (bm : BmFun) (q : String) (bank : Option String)
    (base : List (Nat × Row)) (i : Nat)
    (hi : i ∈ (scoreStage bm q bank base).map Prod.fst) : ∃ p ∈ base, p.1 = i := by
  unfold scoreStage at hi
  simp only [List.map_map, List.mem_map, Function.comp] at hi
  rcases hi with ⟨pq, hpq, hfst⟩
  refine ⟨pq.1, ?_, hfst⟩
  obtain ⟨a, c⟩ := pq
  exact (List.of_mem_zip hpq).1

/-- C1 amended: an empty filtered set never propagates — whatever emptied the
filter stage (fee, category, or their combination), `search` falls back to
the full unfiltered dataset, so on any non-empty indexed dataset with an
effective k of at least 1 it returns a non-empty result. -/
theorem C1_fallback (bm : BmFun) (rt : Retriever) (q : String) (bank : Option String)
    (mf : Option Int) (cats : Option (List String)) (kArg : Option Nat)
    (hbm : ∀ c qt, (bm c qt).length = c.length)
    (hne : rt.df.rows ≠ []) (hbuilt : rt.bmBuilt = true)
    (hk : 1 ≤ pyOrNat kArg rt.k) :
    (search bm rt q bank mf cats kArg).rows ≠ [] := by
  have hbase : searchBase rt bank mf cats ≠ [] := by
    unfold searchBase
    by_cases hfil : (applyFilters rt.df.cols (enumIdx 0 rt.df.rows) bank mf cats).isEmpty
    · simp only [hfil, if_true]
      cases hrows : rt.df.rows with
      | nil => exact absurd hrows hne
      | cons r rs => simp [enumIdx]
    · simp only [hfil, Bool.false_eq_true, if_false]
      simpa [List.isEmpty_iff] using hfil
  have hsorted : searchSorted bm rt q bank mf cats ≠ [] := by
    have hlen : (searchSorted bm rt q bank mf cats).length ≠ 0 := by
      unfold searchSorted searchScored
      rw [pySortDesc_length, scoreStage_length bm q bank _ hbm]
      simpa [List.length_eq_zero] using hbase
    simpa [List.length_eq_zero] using hlen
  obtain ⟨iq, rest, hcons⟩ := List.exists_cons_of_ne_nil hsorted
  have hpicked : searchPicked bm rt q bank mf cats kArg ≠ [] := by
    simp only [searchPicked]
    rw [hcons]
    exact pickLoop_cons_ne _ _ iq rest
  obtain ⟨i, prest, hpcons⟩ := List.exists_cons_of_ne_nil hpicked
  have hifind : (searchBase rt bank mf cats).find? (fun p => p.1 == i) |>.isSome := by
    have hisub : i ∈ (searchSorted bm rt q bank mf cats).map Prod.fst := by
      have hmem : i ∈ searchPicked bm rt q bank mf cats kArg := by
        rw [hpcons]; exact List.mem_cons_self _ _
      exact (pickLoop_sublist _ _ _ _).subset hmem
    have hiscored : i ∈ (searchScored bm rt q bank mf cats).map Prod.fst := by
      rcases List.mem_map.mp hisub with ⟨z, hz, hfz⟩
      exact List.mem_map.mpr ⟨z, (pySortDesc_mem z _).mp hz, hfz⟩
    rcases mem_map_fst_scoreStage bm q bank _ i hiscored with ⟨p, hp, hpi⟩
    apply List.find?_isSome.mpr
    exact ⟨p, hp, by simp [hpi]⟩
  unfold search
  rw [if_neg (by simp [List.isEmpty_iff, hne, hbuilt])]
  simp only [ne_eq, List.map_eq_nil_iff]
  intro htake
  rw [hpcons] at htake
  cases hf : (searchBase rt bank mf cats).find? (fun p => p.1 == i) with
  | none => rw [hf] at hifind; simp at hifind
  | some pr =>
      rw [List.filterMap_cons, hf] at htake
      cases hkk : pyOrNat kArg rt.k with
      | zero => omega
      | succ m => simp [hkk, List.take_succ_cons] at htake

/-- C1 witness: a fee ceiling of 100 empties the filter stage on a one-row
dataset with fee 500, yet search still returns a non-empty result. -/
theorem C1_fallback_wit : (search bmZero rtFee "q" none (some 100) none (some 3)).rows ≠ [] :=
  C1_fallback bmZero rtFee "q" none (some 100) none (some 3)
    (fun c qt => by simp [bmZero]) (by decide) (by decide) (by decide)

/-- C1 counterexample: for this non-empty dataset the fee constraint (ceiling
100 against fee 500) makes the filter stage yield zero rows, yet `search`
does not return an empty result set — it falls back to the unfiltered
dataset and returns one record, contradicting the claimed propagation. -/
theorem C1_cx :
    applyFilters rtFee.df.cols (enumIdx 0 rtFee.df.rows) none (some 100) none = [] ∧
    (search bmZero rtFee "q" none (some 100) none (some 3)).rows ≠ [] := by
  constructor
  · decide
  · decide


theorem catStage_mem {cats : Option (List String)} {rows : List (Nat × Row)} {p : Nat × Row}
    (h : p ∈ catStage cats rows) : p ∈ rows :=
  (catStage_sublist cats rows).subset h

/-- C4 amended: a row whose fee field fails integer parsing is assigned the
sentinel fee `10 ^ 9` instead of raising, and is excluded from the filter
stage for every provided fee ceiling that is nonzero (a zero ceiling skips
the filter) and below the sentinel `10 ^ 9` (at or above it the sentinel
passes the comparison). -/
theorem C4_fee_excluded (cols : List String) (rows : List (Nat × Row)) (bank : Option String)
    (cats : Option (List String)) (i : Nat) (row : Row) (f : Int)
    (hcol : feeCol cols ∈ cols)
    (hparse : parseIntStr (stripCommas (rowGet row (feeCol cols) "")) = none)
    (hf0 : f ≠ 0) (hfs : f < 10 ^ 9) :
    (i, row) ∉ applyFilters cols rows bank (some f) cats := by
  intro hmem
  have hmem2 : (i, row) ∈ feeStage cols (some f) (bankStage bank rows) :=
    catStage_mem hmem
  have hf0' : (f == 0) = false := by simpa using hf0
  simp only [feeStage, hf0', Bool.false_eq_true, if_false, if_pos hcol] at hmem2
  have hpred := List.of_mem_filter hmem2
  have hle : feeVal (rowGet row (feeCol cols) "") ≤ f := by
    simpa [feePred] using hpred
  unfold feeVal at hle
  rw [hparse] at hle
  simp only [Option.getD_none] at hle
  linarith

/-- C4 witness: the "N/A" fee row is excluded from a fee-capped query with
ceiling 100. -/
theorem C4_fee_excluded_wit :
    (0, rowNA) ∉ applyFilters ["Annual Fee"] [(0, rowNA)] none (some 100) none :=
  C4_fee_excluded ["Annual Fee"] [(0, rowNA)] none none 0 rowNA 100
    (by decide) (by decide) (by decide) (by decide)

/-- C4 counterexample: the claim says a malformed-fee row is excluded for
every provided ceiling, but with ceiling `10 ^ 9` the parse-failure sentinel
passes the comparison and the "N/A" row is retained, and with ceiling 0 the
fee filter is skipped altogether and the row is retained as well. -/
theorem C4_cx :
    ((0, rowNA) ∈ applyFilters ["Annual Fee"] [(0, rowNA)] none (some (10 ^ 9)) none) ∧
    ((0, rowNA) ∈ applyFilters ["Annual Fee"] [(0, rowNA)] none (some 0) none) := by
  constructor
  · decide
  · decide

theorem foldl_bonus_count (L : List String) (P : String → Bool) (init : ℚ) :
    L.foldl (fun b w => if P w then b + 1 / 20 else b) init
      = init + ((L.filter P).length : ℚ) * (1 / 20) := by
  induction L generalizing init with
  | nil => simp
  | cons w ws ih =>
      by_cases h : P w
      · simp only [List.foldl_cons, h, if_true, List.filter_cons_of_pos h, List.length_cons]
        rw [ih]
        push_cast
        ring
      · rw [List.foldl_cons, if_neg h, ih, List.filter_cons_of_neg h]

theorem keywordBonus_eq (q : String) (row : Row) :
    keywordBonus q row
      = min (((keywordSynonyms.filter (fun w => pyInStr w (lowerStr q)
          && pyInStr w (lowerStr (joinSp [rowGet row "Card Name" "",
            rowGet row "Description" "", rowGet row "Key Benefits" "",
            rowGet row "Tags" ""])))).length : ℚ) * (1 / 20)) (1 / 5) := by
  simp only [keywordBonus]
  rw [foldl_bonus_count]
  simp

theorem get?_zip_of (l1 : List (Nat × Row)) (l2 : List ℚ) (j : Nat) (a : Nat × Row) (b : ℚ)
    (h1 : l1.get? j = some a) (h2 : l2.get? j = some b) :
    (l1.zip l2).get? j = some (a, b) := by
  induction l1 generalizing j l2 with
  | nil => simp at h1
  | cons x xs ih =>
      cases l2 with
      | nil => simp at h2
      | cons y ys =>
          cases j with
          | zero =>
              simp only [List.get?] at h1 h2
              injection h1 with h1
              injection h2 with h2
              simp [List.zip_cons_cons, List.get?, h1, h2]
          | succ n =>
              simp only [List.get?] at h1 h2
              simpa [List.zip_cons_cons, List.get?] using ih ys n h1 h2

/-- C8: each candidate's final score decomposes as the external BM25 base
score, computed over an index built from exactly the filtered candidate
subset passed to scoring, plus a keyword bonus of 0.05 per fixed-vocabulary
synonym present in both the query and the candidate's
name/description/benefits/tags text capped at 0.20, plus a flat 0.25 bank
bonus exactly when a truthy bank was requested and the candidate's bank
field contains it case-insensitively (0 otherwise). -/
theorem C8_score (bm : BmFun) (rt : Retriever) (q : String) (bank : Option String)
    (mf : Option Int) (cats : Option (List String)) (j : Nat) (i : Nat) (row : Row) (s : ℚ)
    (h1 : (searchBase rt bank mf cats).get? j = some (i, row))
    (h2 : (bm ((searchBase rt bank mf cats).map (fun p => tokenize (rowText p.2)))
        (tokenize q)).get? j = some s) :
    (searchScored bm rt q bank mf cats).get? j
      = some (i, s
          + min (((keywordSynonyms.filter (fun w => pyInStr w (lowerStr q)
              && pyInStr w (lowerStr (joinSp [rowGet row "Card Name" "",
                rowGet row "Description" "", rowGet row "Key Benefits" "",
                rowGet row "Tags" ""])))).length : ℚ) * (1 / 20)) (1 / 5)
          + (match bank with
             | none => (0 : ℚ)
             | some bs =>
                 if bs == "" then 0
                 else if pyInStr (lowerStr bs)
                     (lowerStr (rowGet row "Bank Name" (rowGet row "bank_name" ""))) then 1 / 4
                 else 0)) := by
  unfold searchScored scoreStage
  rw [List.get?_map, get?_zip_of _ _ j (i, row) s h1 h2]
  simp only [Option.map_some']
  rw [keywordBonus_eq]
  rfl

/-- C8 witness: score decomposition instantiated at the single candidate of
a one-row dataset with the all-zeros lexical scorer. -/
theorem C8_score_wit :
    (searchScored bmZero rtOne "travel" none none none).get? 0
      = some (0, 0
          + min (((keywordSynonyms.filter (fun w => pyInStr w (lowerStr "travel")
              && pyInStr w (lowerStr (joinSp [rowGet rowOne "Card Name" "",
                rowGet rowOne "Description" "", rowGet rowOne "Key Benefits" "",
                rowGet rowOne "Tags" ""])))).length : ℚ) * (1 / 20)) (1 / 5)
          + 0) :=
  C8_score bmZero rtOne "travel" none none none 0 0 rowOne 0 (by decide) (by decide)

theorem search_rows_mem (bm : BmFun) (rt : Retriever) (q : String) (bank : Option String)
    (mf : Option Int) (cats : Option (List String)) (kArg : Option Nat) (r : Row)
    (hr : r ∈ (search bm rt q bank mf cats kArg).rows) :
    ∃ r0 ∈ rt.df.rows, r = renameRow r0 := by
  unfold search at hr
  by_cases hguard : (rt.df.rows.isEmpty || !rt.bmBuilt) = true
  · rw [if_pos hguard] at hr
    simp [emptyFrame] at hr
  · rw [if_neg hguard] at hr
    rcases List.mem_map.mp hr with ⟨p, hp, hrp⟩
    have hp2 := List.mem_of_mem_take hp
    rcases List.mem_filterMap.mp hp2 with ⟨i, _, hfind⟩
    have hpbase : p ∈ searchBase rt bank mf cats := List.mem_of_find?_eq_some hfind
    have hrow : p.2 ∈ rt.df.rows :=
      enumIdx_snd_mem 0 _ p ((searchBase_sublist rt bank mf cats).subset hpbase)
    exact ⟨p.2, hrow, hrp.symm⟩

theorem renameRow_keys (r : Row) : (renameRow r).map Prod.fst = (r.map Prod.fst).map renameKey := by
  simp [renameRow, List.map_map]

theorem fillnaRow_keys (r : RawRow) : (fillnaRow r).map Prod.fst = r.map Prod.fst := by
  simp [fillnaRow, List.map_map]

/-- C2 amended: on a dataset whose every row carries the full column set of
either accepted naming scheme, every record returned by `search` carries
exactly the canonical snake_case field names (null cells having been
replaced by empty strings at load); however the two schemes are NOT filtered
and scored equivalently, because the category filter and the keyword bonus
read only the Title-Case column names (see the counterexample). -/
theorem C2_canonical (bm : BmFun) (raw : RawFrame) (kk : Nat) (q : String) (bank : Option String)
    (mf : Option Int) (cats : Option (List String)) (kArg : Option Nat)
    (h : ∀ r ∈ raw.rows, r.map Prod.fst = titleCols ∨ r.map Prod.fst = canonCols) :
    (search bm (mkRetriever (some raw) kk) q bank mf cats kArg).rows.map
        (fun r => r.map Prod.fst)
      = List.replicate
          (search bm (mkRetriever (some raw) kk) q bank mf cats kArg).rows.length
          canonCols := by
  have hmem : ∀ keys ∈ (search bm (mkRetriever (some raw) kk) q bank mf cats kArg).rows.map
      (fun r => r.map Prod.fst), keys = canonCols := by
    intro keys hkeys
    rcases List.mem_map.mp hkeys with ⟨r, hr, hkr⟩
    rcases search_rows_mem bm _ q bank mf cats kArg r hr with ⟨r0, hr0, hre⟩
    have hr0raw : ∃ rr ∈ raw.rows, r0 = fillnaRow rr := by
      by_cases hempty : raw.rows.isEmpty
      · exfalso
        have : (mkRetriever (some raw) kk).df.rows = [] := by
          simp [mkRetriever, hempty, emptyFrame]
        rw [this] at hr0
        simp at hr0
      · have : (mkRetriever (some raw) kk).df.rows = raw.rows.map fillnaRow := by
          simp [mkRetriever, hempty]
        rw [this] at hr0
        rcases List.mem_map.mp hr0 with ⟨rr, hrr, hfe⟩
        exact ⟨rr, hrr, hfe.symm⟩
    rcases hr0raw with ⟨rr, hrr, rfl⟩
    subst hre
    rw [← hkr, renameRow_keys, fillnaRow_keys]
    rcases h rr hrr with hcase | hcase
    · rw [hcase]
      decide
    · rw [hcase]
      decide
  have := List.eq_replicate_of_mem hmem
  rwa [List.length_map] at this

/-- C2 witness: on a full Title-Case-schema dataset every returned record
carries exactly the canonical snake_case field names. -/
theorem C2_canonical_wit :
    (search bmZero (mkRetriever (some rawFull) 10) "q" none none none none).rows.map
        (fun r => r.map Prod.fst)
      = List.replicate
          (search bmZero (mkRetriever (some rawFull) 10) "q" none none none none).rows.length
          canonCols :=
  C2_canonical bmZero rawFull 10 "q" none none none none (by decide)

/-- C2 counterexample: the same two-card dataset expressed in the Title-Case
scheme and in the snake_case scheme is not searched equivalently: with
category filter ["cashback"], the Title-Case dataset returns exactly the one
matching card, while under the snake_case scheme the category filter reads
the (missing) Title-Case columns, matches nothing, and search falls back to
the full dataset, returning both cards. -/
theorem C2_cx :
    (search bmZero rtTitleTwo "q" none none (some ["cashback"]) none).rows.length = 1 ∧
    (search bmZero rtSnakeTwo "q" none none (some ["cashback"]) none).rows.length = 2 := by
  constructor
  · decide
  · decide

end
